import Mathlib

/-!
Verification development for the FreshLoop data-journey extractor
(`scripts/extract_trace.py`): a shallow embedding of its trace-filename
codec, trace matcher, step segmenter, fragment extractors, source
reconciler and report builder, together with theorems about them.

Modelling conventions:
* Python strings are `String`/`List Char`; character classes (`\d`,
  `\s`, `str.lower`) are modelled over ASCII, which covers every literal
  the script manipulates.
* Python `datetime` values are modelled by their civil fields
  (`Timestamp`) and compared through their epoch-second value in a fixed
  UTC-like zone; `fromtimestamp`/`strptime` shift by the same fixed
  offset, so all comparisons in the script are offset-independent.
* An uncaught Python exception is modelled explicitly (`ParseResult.raised`,
  `MatchOutcome.raised`) rather than as a value.
-/

namespace ExtractTrace

/-! ### Python string primitives -/

/-- Python `\s` / `str.strip()` whitespace class (ASCII part). -/
def pyIsSpace (c : Char) : Bool :=
  c = ' ' || c = '\t' || c = '\n' || c = '\r' || c = '\x0b' || c = '\x0c'

/-- `str.strip()` on a character list. -/
def stripList (l : List Char) : List Char :=
  ((l.dropWhile pyIsSpace).reverse.dropWhile pyIsSpace).reverse

/-- `str.strip()`. -/
def pyStrip (s : String) : String := ⟨stripList s.data⟩

/-- `str.startswith(pre)`. -/
def strStartsWith (s pre : String) : Bool := pre.data.isPrefixOf s.data

/-- Python `str.split('\n')` on a character list (`"".split('\n')`
is `[""]`). -/
def splitNl : List Char → List (List Char)
  | [] => [[]]
  | c :: t =>
    if c = '\n' then [] :: splitNl t
    else
      match splitNl t with
      | [] => [[c]]
      | h :: r => (c :: h) :: r

/-- Python `s.split('\n')`. -/
def pySplitLines (s : String) : List String := (splitNl s.data).map String.mk

/-- Python slicing `s[n:]`. -/
def strDrop (s : String) (n : Nat) : String := ⟨s.data.drop n⟩

/-- Python substring test `pat in l` on character lists. -/
def isSubL : List Char → List Char → Bool
  | pat, [] => pat.isEmpty
  | pat, l@(_ :: t) => pat.isPrefixOf l || isSubL pat t

/-- Python substring test `a in b` on strings. -/
def isSubstrStr (a b : String) : Bool := isSubL a.data b.data

/-- `str.lower()` (ASCII). -/
def pyLower (s : String) : String := ⟨s.data.map Char.toLower⟩

/-- One pass of Python `str.replace(pat, rep)` (left-to-right,
non-overlapping), fuelled by the input length. -/
def replaceAllL (pat rep : List Char) : Nat → List Char → List Char
  | _, [] => []
  | 0, l => l
  | fuel+1, l@(c :: t) =>
    if pat ≠ [] ∧ pat.isPrefixOf l then
      rep ++ replaceAllL pat rep fuel (l.drop pat.length)
    else c :: replaceAllL pat rep fuel t

/-- Python `s.replace(pat, rep)`. -/
def pyReplace (s pat rep : String) : String :=
  ⟨replaceAllL pat.data rep.data s.data.length s.data⟩

/-- `category.replace(' ', '_')` from `find_matching_trace`. -/
def normalizeCategory (s : String) : String :=
  ⟨s.data.map (fun c => if c = ' ' then '_' else c)⟩

/-! ### Decimal digits -/

def digitVal (c : Char) : Nat := c.toNat - 48

def digitChar (n : Nat) : Char := Char.ofNat (48 + n)

/-- Value of a decimal digit string. -/
def digitsToNat (l : List Char) : Nat := l.foldl (fun a c => 10 * a + digitVal c) 0

/-- Zero-padded fixed-width decimal rendering. -/
def padNat : Nat → Nat → List Char
  | 0, _ => []
  | w+1, n => padNat w (n / 10) ++ [digitChar (n % 10)]

/-! ### Calendar / epoch conversion -/

def isLeap (y : Nat) : Bool := y % 4 = 0 && (y % 100 ≠ 0 || y % 400 = 0)

def daysInMonth (y m : Nat) : Nat :=
  if m = 2 then (if isLeap y then 29 else 28)
  else if m = 4 ∨ m = 6 ∨ m = 9 ∨ m = 11 then 30
  else 31

/-- Civil fields of a Python `datetime` at minute precision, as produced
by `strptime(dt_str, "%Y%m%d %H%M")`. -/
structure Timestamp where
  year : Nat
  month : Nat
  day : Nat
  hour : Nat
  minute : Nat
deriving DecidableEq, Repr

/-- The validity check `datetime.strptime` performs on the captured
digits: a real calendar date and a real wall-clock time. -/
def validTs (ts : Timestamp) : Bool :=
  1 ≤ ts.year && 1 ≤ ts.month && ts.month ≤ 12 &&
  1 ≤ ts.day && ts.day ≤ daysInMonth ts.year ts.month &&
  ts.hour ≤ 23 && ts.minute ≤ 59

/-- Days since 1970-01-01 of a civil date (standard civil-from-days
inverse, valid for year ≥ 1). -/
def daysFromCivil (y m d : Nat) : Int :=
  let y' : Int := (y : Int) - (if m ≤ 2 then 1 else 0)
  let era : Int := y'.fdiv 400
  let yoe : Int := y' - era * 400
  let mp : Int := ((m : Int) + 9) % 12
  let doy : Int := (153 * mp + 2).fdiv 5 + (d : Int) - 1
  let doe : Int := yoe * 365 + yoe.fdiv 4 - yoe.fdiv 100 + doy
  era * 146097 + doe - 719468

/-- Epoch seconds of a minute-precision timestamp. -/
def toEpochSecs (ts : Timestamp) : Int :=
  daysFromCivil ts.year ts.month ts.day * 86400 + (ts.hour : Int) * 3600 + (ts.minute : Int) * 60

/-- Civil date of a day count since 1970-01-01. -/
def civilFromDays (z : Int) : Int × Int × Int :=
  let z' := z + 719468
  let era := z'.fdiv 146097
  let doe := z' - era * 146097
  let yoe := (doe - doe.fdiv 1460 + doe.fdiv 36524 - doe.fdiv 146096).fdiv 365
  let y := yoe + era * 400
  let doy := doe - (365 * yoe + yoe.fdiv 4 - yoe.fdiv 100)
  let mp := (5 * doy + 2).fdiv 153
  let d := doy - (153 * mp + 2).fdiv 5 + 1
  let m := mp + (if mp < 10 then 3 else -9)
  (y + (if m ≤ 2 then 1 else 0), m, d)

/-- `str(datetime.datetime.fromtimestamp(e))` for an integral epoch. -/
def renderEpoch (e : Int) : String :=
  let days := e.fdiv 86400
  let sod := (e - days * 86400).toNat
  let c := civilFromDays days
  ⟨padNat 4 c.1.toNat ++ '-' :: padNat 2 c.2.1.toNat ++ '-' :: padNat 2 c.2.2.toNat ++
    ' ' :: padNat 2 (sod / 3600) ++ ':' :: padNat 2 (sod % 3600 / 60) ++ ':' :: padNat 2 (sod % 60)⟩

/-! ### FilenameCodec: `parse_trace_filename`

The script matches `re.match(r"trace_(\d{8})_(\d{4})_(.+)_([a-f0-9]+)\.md", basename)`
(anchored at the start only), then converts the date/time digits with
`strptime`, which raises `ValueError` on digits that are not a real
date/time. The backtracking search below reproduces the regex engine:
`(.+)` is greedy (longest category first, `.` excludes newline), then
`([a-f0-9]+)` is greedy, then the literal `.md` — with arbitrary
trailing characters allowed after it. -/

def isHexDigit (c : Char) : Bool := c.isDigit || ('a' ≤ c && c ≤ 'f')

/-- `os.path.basename`: the part after the last `/`. -/
def pyBasename (l : List Char) : List Char := (l.reverse.takeWhile (· ≠ '/')).reverse

/-- Greedy `([a-f0-9]+)\.md` on the remainder `r`: try id lengths from
`n` downward. -/
def hexSearch (r : List Char) : Nat → Option (List Char)
  | 0 => none
  | m+1 => if ['.', 'm', 'd'].isPrefixOf (r.drop (m+1)) then some (r.take (m+1)) else hexSearch r m

/-- Greedy hex id followed by the literal `.md` (trailing junk allowed). -/
def hexMd (r : List Char) : Option (List Char) :=
  hexSearch r (r.takeWhile isHexDigit).length

/-- Try category length `cLen` at remainder `r`: `(.+)` content, the
literal `_`, then the hex id and `.md`. -/
def checkAt (r : List Char) (cLen : Nat) : Option (List Char × List Char) :=
  if (r.take cLen).length = cLen ∧ (r.take cLen).all (· ≠ '\n') then
    match r.drop cLen with
    | '_' :: rest =>
      match hexMd rest with
      | some i => some (r.take cLen, i)
      | none => none
    | _ => none
  else none

/-- Greedy `(.+)_([a-f0-9]+)\.md`: category lengths from `n` downward. -/
def catSearch (r : List Char) : Nat → Option (List Char × List Char)
  | 0 => none
  | n+1 =>
    match checkAt r (n+1) with
    | some res => some res
    | none => catSearch r n

/-- The four captures of the filename regex, or `none` if it does not match. -/
def regexCapture (l : List Char) : Option (List Char × List Char × List Char × List Char) :=
  if ('t' :: 'r' :: 'a' :: 'c' :: 'e' :: '_' ::[]).isPrefixOf l then
    if ((l.drop 6).take 8).length = 8 ∧ ((l.drop 6).take 8).all Char.isDigit then
      match (l.drop 6).drop 8 with
      | '_' :: r1 =>
        if (r1.take 4).length = 4 ∧ (r1.take 4).all Char.isDigit then
          match r1.drop 4 with
          | '_' :: r2 =>
            (catSearch r2 r2.length).map
              (fun ci => ((l.drop 6).take 8, r1.take 4, ci.1, ci.2))
          | _ => none
        else none
      | _ => none
    else none
  else none

/-- The timestamp `strptime("%Y%m%d %H%M")` builds from the two digit
captures. -/
def tsOfDigits (d t : List Char) : Timestamp :=
  ⟨digitsToNat (d.take 4), digitsToNat ((d.drop 4).take 2), digitsToNat (d.drop 6),
    digitsToNat (t.take 2), digitsToNat (t.drop 2)⟩

/-- Outcome of `parse_trace_filename`: regex mismatch (`(None, None, None)`),
an uncaught `strptime` `ValueError`, or the parsed triple. -/
inductive ParseResult where
  | noMatch
  | raised
  | ok (ts : Timestamp) (category : String) (traceId : String)
deriving DecidableEq, Repr

/-- `parse_trace_filename` from the script. -/
def parse_trace_filename (filename : String) : ParseResult :=
  match regexCapture (pyBasename filename.data) with
  | none => .noMatch
  | some (d, t, c, i) =>
    if validTs (tsOfDigits d t) then .ok (tsOfDigits d t) ⟨c⟩ ⟨i⟩ else .raised

/-- Re-encoding of a decoded timestamp into its 8-digit date substring
(the spec's "re-encoding the captured fields"). -/
def encodeDate (ts : Timestamp) : List Char :=
  padNat 4 ts.year ++ padNat 2 ts.month ++ padNat 2 ts.day

/-- Re-encoding of a decoded timestamp into its 4-digit time substring. -/
def encodeTime (ts : Timestamp) : List Char :=
  padNat 2 ts.hour ++ padNat 2 ts.minute

/-! ### TraceMatcher: `find_matching_trace` -/

/-- A catalog item as used by the script (`target_item.get(...)`). -/
structure Item where
  id : String
  title : String
  category : String
  publish_time : Option Int
  duration_sec : Option Int
deriving DecidableEq, Repr

/-- Result of `find_matching_trace`: an uncaught exception from
`parse_trace_filename`, or the optional winning path. -/
inductive MatchOutcome where
  | raised
  | result (path : Option String)
deriving DecidableEq, Repr

/-- The candidate-collection loop of `find_matching_trace`: decode each
file, skip non-decoding ones, apply the category / before / window
filters, and record `(delta_seconds, path)` in enumeration order. An
uncaught `ValueError` from `strptime` aborts the whole search. -/
def collectCandidates (cat : String) (pts : Int) : List String → Option (List (Int × String))
  | [] => some []
  | f :: fs =>
    match parse_trace_filename f with
    | .raised => none
    | .noMatch => collectCandidates cat pts fs
    | .ok ts c _ =>
      if pyLower c ≠ pyLower cat then collectCandidates cat pts fs
      else
        let te := toEpochSecs ts
        if te > pts then collectCandidates cat pts fs
        else if pts - te > 3600 then collectCandidates cat pts fs
        else (collectCandidates cat pts fs).map (fun l => (pts - te, f) :: l)

/-- Stable insertion used to model Python's stable `list.sort(key=gap)`:
a later element is placed after all already-sorted elements with a key
`≤` its own. -/
def pyInsert (c : Int × String) : List (Int × String) → List (Int × String)
  | [] => [c]
  | d :: t => if d.1 < c.1 then d :: pyInsert c t else c :: d :: t

/-- Stable sort by gap (same output as Python's stable `sort` on
`(gap, path)` pairs compared by gap). -/
def pySort : List (Int × String) → List (Int × String)
  | [] => []
  | c :: t => pyInsert c (pySort t)

/-- `find_matching_trace` from the script, with the directory listing
passed explicitly in enumeration order. -/
def find_matching_trace (item : Item) (trace_files : List String) : MatchOutcome :=
  match item.publish_time with
  | none => .result none
  | some pts =>
    if pts = 0 then .result none
    else
      match collectCandidates (normalizeCategory item.category) pts trace_files with
      | none => .raised
      | some [] => .result none
      | some (c :: cs) =>
        match pySort (c :: cs) with
        | [] => .result none
        | b :: _ => .result (some b.2)

/-! ### StepSegmenter

The step-header pattern is `re.compile(r"^## (\d+)\. (.+?) \((.+?)\)")`,
applied with `.match` to each line: literal `## `, greedy digits, the
literal `. `, a lazy name up to a ` (`, and a lazy label up to a `)`;
trailing characters after the `)` are allowed. -/

/-- Lazy `(.+?)\)`: the shortest non-empty run of non-newline characters
followed by `)` (so the first `)` at index ≥ 1). -/
def lazyLabel : List Char → Option (List Char)
  | [] => none
  | a :: t =>
    if a = '\n' then none
    else
      let pre := t.takeWhile (fun c => c ≠ ')' && c ≠ '\n')
      match t.drop pre.length with
      | ')' :: _ => some (a :: pre)
      | _ => none

/-- Lazy `(.+?) \((.+?)\)`: grow the name one character at a time; at
each length check for the literal ` (` and a closing label. -/
def nameScan : List Char → List Char → Option (List Char × List Char)
  | _, [] => none
  | acc, c :: rest =>
    if c = '\n' then none
    else if (' ' :: '(' :: []).isPrefixOf rest then
      match lazyLabel (rest.drop 2) with
      | some lab => some ((c :: acc).reverse, lab)
      | none => nameScan (c :: acc) rest
    else nameScan (c :: acc) rest

/-- The step-header regex: captures `(id digits, name, timestamp label)`. -/
def parseStepHeader (line : String) : Option (String × String × String) :=
  let l := line.data
  if ('#' :: '#' :: ' ' ::[]).isPrefixOf l then
    let r0 := l.drop 3
    let ds := r0.takeWhile Char.isDigit
    if ds.isEmpty then none
    else
      match r0.drop ds.length with
      | '.' :: ' ' :: r1 =>
        match nameScan [] r1 with
        | some nl => some (⟨ds⟩, ⟨nl.1⟩, ⟨nl.2⟩)
        | none => none
      | _ => none
  else none

/-- One step of the trace log (dict built in `generate_story_report`). -/
structure Step where
  id : String
  name : String
  time : String
  content : List String
deriving DecidableEq, Repr

def isHeaderLine (l : String) : Bool := (parseStepHeader l).isSome

/-- The segmentation loop: a header closes the open step and opens a new
one (name stripped); other lines extend the open step; lines before the
first header are dropped; the open step is emitted at end of input. -/
def segLoop : Option Step → List String → List Step
  | cur, [] => cur.toList
  | cur, l :: rest =>
    match parseStepHeader l with
    | some h => cur.toList ++ segLoop (some ⟨h.1, pyStrip h.2.1, h.2.2, []⟩) rest
    | none =>
      match cur with
      | some s => segLoop (some ⟨s.id, s.name, s.time, s.content ++ [l]⟩) rest
      | none => segLoop none rest

/-- `segment`: the step-parsing pass of `generate_story_report`. -/
def segmentSteps (text : String) : List Step :=
  segLoop none (pySplitLines text)

theorem length_dropWhile_le' (p : α → Bool) : ∀ l : List α, (l.dropWhile p).length ≤ l.length
  | [] => Nat.le_refl _
  | a :: t => by
    by_cases h : p a
    · simp only [List.dropWhile_cons_of_pos h, List.length_cons]
      exact Nat.le_succ_of_le (length_dropWhile_le' p t)
    · simp [List.dropWhile_cons_of_neg h]

/-- Specification-side segmentation, following the claim's wording: one
step per header line in input order, whose body is exactly the run of
non-header lines that follows it; lines before the first header are
discarded. -/
def segmentSpec : List String → List Step
  | [] => []
  | l :: rest =>
    match parseStepHeader l with
    | none => segmentSpec rest
    | some h =>
      ⟨h.1, pyStrip h.2.1, h.2.2, rest.takeWhile (fun x => !isHeaderLine x)⟩ ::
        segmentSpec (rest.dropWhile (fun x => !isHeaderLine x))
termination_by l => l.length
decreasing_by
  · simp only [List.length_cons]; omega
  · simp only [List.length_cons]
    exact Nat.lt_succ_of_le (length_dropWhile_le' _ _)

/-! ### FragmentExtractor -/

/-- The suffix after the first occurrence of `pat` (the scanning part of
`re.search` for a pattern that starts with a literal). -/
def findAfter (pat : List Char) : List Char → Option (List Char)
  | [] => if pat.isEmpty then some [] else none
  | l@(_ :: t) => if pat.isPrefixOf l then some (l.drop pat.length) else findAfter pat t

/-- Lazy `(.*?)` with DOTALL up to the literal `pat`: the content before
the first occurrence of `pat`. -/
def upToPat (pat : List Char) : List Char → Option (List Char)
  | [] => if pat.isEmpty then some [] else none
  | l@(c :: t) =>
    if pat.isPrefixOf l then some []
    else (upToPat pat t).map (fun r => c :: r)

/-- `re.search(r"\*\*LLM Response\*\*:\n```text\n(.*?)\n```", s, re.DOTALL)`:
the first fenced response block's inner text (unstripped). -/
def extractLLMResponse (s : String) : Option String :=
  match findAfter ("**LLM Response**:\n```text\n".data) s.data with
  | none => none
  | some r =>
    match upToPat ("\n```".data) r with
    | none => none
    | some mid => some ⟨mid⟩

/-- `re.search(r"\*\*LLM Prompt\*\*:.*?(Role:.*?)```", s, re.DOTALL)`:
group(1), i.e. `Role:` up to the first fence. -/
def promptMatch (s : String) : Option String :=
  match findAfter ("**LLM Prompt**:".data) s.data with
  | none => none
  | some r1 =>
    match findAfter ("Role:".data) r1 with
    | none => none
    | some r2 =>
      match upToPat ("```".data) r2 with
      | none => none
      | some mid => some ⟨("Role:".data) ++ mid⟩

/-- The scanning loop of the ordering-JSON search: at each position try
the literal response prefix, an immediate `[`, and a lazy close `]`
followed by the fence. -/
def jsonScan : List Char → Option String
  | [] => none
  | l@(_ :: t) =>
    if ("**LLM Response**:\n```text\n".data).isPrefixOf l then
      match l.drop ("**LLM Response**:\n```text\n".data).length with
      | '[' :: r =>
        match upToPat ("]\n```".data) r with
        | some inner => some ⟨'[' :: (inner ++ [']'])⟩
        | none => jsonScan t
      | _ => jsonScan t
    else jsonScan t

/-- `re.search(r"\*\*LLM Response\*\*:\n```text\n(\[.*?\])\n```", s, re.DOTALL)`:
scan for a response block whose content starts with `[` and capture the
bracketed text up to the first `]` that is followed by a closing fence. -/
def jsonMatch (s : String) : Option String :=
  jsonScan s.data

/-- `re.search(r"【新闻素材】\n(.*?)\n【核心要求", s, re.DOTALL)`: the
materials block between the two bilingual markers. -/
def materialsMatch (s : String) : Option String :=
  match findAfter ("【新闻素材】\n".data) s.data with
  | none => none
  | some r =>
    match upToPat ("\n【核心要求".data) r with
    | none => none
    | some mid => some ⟨mid⟩

/-- Lazy `.*?` (no newline) up to the literal `pat`. -/
def upToSameLine (pat : List Char) : List Char → Option (List Char)
  | [] => if pat.isEmpty then some [] else none
  | l@(c :: t) =>
    if pat.isPrefixOf l then some []
    else if c = '\n' then none
    else (upToSameLine pat t).map (fun r => c :: r)

/-- One attempt of `re.findall(r"(\d+\. \*\*.*?\*\*:.*)", ...)` at the
current position: digits, `. **`, lazy same-line run up to `**:`, then
the rest of the line. Returns the capture and the remainder. -/
def matchPrinciple (l : List Char) : Option (List Char × List Char) :=
  let ds := l.takeWhile Char.isDigit
  if ds.isEmpty then none
  else
    let r := l.drop ds.length
    if ('.' :: ' ' :: '*' :: '*' ::[]).isPrefixOf r then
      let r2 := r.drop 4
      match upToSameLine ('*' :: '*' :: ':' ::[]) r2 with
      | none => none
      | some m =>
        let r3 := (r2.drop m.length).drop 3
        let tail := r3.takeWhile (· ≠ '\n')
        some (ds ++ ('.' :: ' ' :: '*' :: '*' ::[]) ++ m ++ ('*' :: '*' :: ':' ::[]) ++ tail, r3.drop tail.length)
    else none

/-- `re.findall(r"(\d+\. \*\*.*?\*\*:.*)", prompt_text)`: scan
left-to-right for non-overlapping matches. -/
def principlesScan : Nat → List Char → List String
  | 0, _ => []
  | _, [] => []
  | fuel+1, l@(_ :: t) =>
    match matchPrinciple l with
    | some cr => (⟨cr.1⟩ : String) :: principlesScan fuel cr.2
    | none => principlesScan fuel t

/-- One attempt of `re.findall(r"- ([a-f0-9]+): (.*)", ...)` at the
current position. -/
def matchIdTitle (l : List Char) : Option (List Char × List Char × List Char) :=
  if ('-' :: ' ' ::[]).isPrefixOf l then
    let r := l.drop 2
    let hx := r.takeWhile isHexDigit
    if hx.isEmpty then none
    else
      match r.drop hx.length with
      | ':' :: ' ' :: r2 =>
        let title := r2.takeWhile (· ≠ '\n')
        some (hx, title, r2.drop title.length)
      | _ => none
  else none

/-- `re.findall(r"- ([a-f0-9]+): (.*)", prompt_text)` as (id, title) pairs. -/
def idTitleScan : Nat → List Char → List (String × String)
  | 0, _ => []
  | _, [] => []
  | fuel+1, l@(_ :: t) =>
    match matchIdTitle l with
    | some r => ((⟨r.1⟩ : String), (⟨r.2.1⟩ : String)) :: idTitleScan fuel r.2.2
    | none => idTitleScan fuel t

/-- Dict lookup with default, for a dict built by inserting the pairs in
order with later keys overwriting earlier ones. -/
def mapGet (m : List (String × String)) (k dflt : String) : String :=
  match m.reverse.find? (fun p => p.1 == k) with
  | some p => p.2
  | none => dflt

/-! ### JSON payload (`json.loads` on the captured array)

The planning step's response is a JSON array of short-id strings; this
models `json.loads` on that fragment of JSON (an array of strings with
the standard escapes). Anything else fails the parse, which the script
turns into its "Failed to parse planning JSON." placeholder. -/

def skipWs (l : List Char) : List Char :=
  l.dropWhile (fun c => c = ' ' || c = '\t' || c = '\n' || c = '\r')

def jsonHexVal (c : Char) : Nat :=
  if c.isDigit then c.toNat - 48
  else if 'a' ≤ c ∧ c ≤ 'f' then c.toNat - 87
  else c.toNat - 55

def isJsonHex (c : Char) : Bool :=
  c.isDigit || ('a' ≤ c && c ≤ 'f') || ('A' ≤ c && c ≤ 'F')

/-- The body of a JSON string after the opening quote: the decoded
characters and the remainder after the closing quote. -/
def parseJsonString : List Char → Option (List Char × List Char)
  | [] => none
  | '"' :: t => some ([], t)
  | '\\' :: e :: t =>
    let cont (c : Char) : Option (List Char × List Char) :=
      (parseJsonString t).map (fun r => (c :: r.1, r.2))
    if e = '"' then cont '"'
    else if e = '\\' then cont '\\'
    else if e = '/' then cont '/'
    else if e = 'n' then cont '\n'
    else if e = 't' then cont '\t'
    else if e = 'r' then cont '\r'
    else if e = 'b' then cont '\x08'
    else if e = 'f' then cont '\x0c'
    else if e = 'u' then
      match t with
      | a :: b :: c :: d :: t2 =>
        if isJsonHex a && isJsonHex b && isJsonHex c && isJsonHex d then
          (parseJsonString t2).map (fun r =>
            (Char.ofNat (((jsonHexVal a * 16 + jsonHexVal b) * 16 + jsonHexVal c) * 16 + jsonHexVal d) :: r.1, r.2))
        else none
      | _ => none
    else none
  | c :: t =>
    if c.toNat < 32 then none
    else (parseJsonString t).map (fun r => (c :: r.1, r.2))

/-- The elements of a non-empty JSON array of strings, after the `[`. -/
def parseJsonElems : Nat → List Char → Option (List String × List Char)
  | 0, _ => none
  | fuel+1, l =>
    match skipWs l with
    | '"' :: r =>
      match parseJsonString r with
      | none => none
      | some sr =>
        match skipWs sr.2 with
        | ',' :: r3 =>
          match parseJsonElems fuel r3 with
          | some xr => some ((⟨sr.1⟩ : String) :: xr.1, xr.2)
          | none => none
        | ']' :: r3 => some ([(⟨sr.1⟩ : String)], r3)
        | _ => none
    | _ => none

/-- `json.loads` on the captured `[...]` text (array-of-strings fragment). -/
def jsonParseArray (s : String) : Option (List String) :=
  match skipWs s.data with
  | '[' :: r =>
    match skipWs r with
    | ']' :: r2 => if (skipWs r2).isEmpty then some [] else none
    | _ =>
      match parseJsonElems r.length r with
      | some xr => if (skipWs xr.2).isEmpty then some xr.1 else none
      | none => none
  | _ => none

/-! ### Materials block and SourceReconciler -/

/-- A bulleted material entry from the 【新闻素材】 block. All three
fields are always-present strings (`summary`/`source` start empty). -/
structure MaterialEntry where
  title_line : String
  summary : String
  source : String
deriving DecidableEq, Repr

/-- A source record fetched from the catalog. The script reads each
field with `.get(..., '')` (plus `or ''` for the title), so the values
it consumes are plain strings. -/
structure SourceRecord where
  source_title : String
  source_summary : String
  source_url : String
deriving DecidableEq, Repr

/-- The continuation-line handling of the bullet loop: a `摘要:` line
extends `summary`, a `来源:` line extends `source`, anything else is
appended to `summary` with a space. -/
def matExtend (e : MaterialEntry) (l : String) : MaterialEntry :=
  if strStartsWith l "摘要:" then
    ⟨e.title_line, e.summary ++ pyStrip (pyReplace l "摘要:" ""), e.source⟩
  else if strStartsWith l "来源:" then
    ⟨e.title_line, e.summary, e.source ++ pyStrip (pyReplace l "来源:" "")⟩
  else
    ⟨e.title_line, e.summary ++ " " ++ l, e.source⟩

/-- The multi-line bullet parsing loop of the materials block: a
stripped line starting `- ` opens a new entry; other non-empty lines
extend the open entry (`matExtend`); empty lines are skipped; lines
before the first bullet are dropped. -/
def matLoop : Option MaterialEntry → List String → List MaterialEntry
  | cur, [] => cur.toList
  | cur, l₀ :: rest =>
    let l := pyStrip l₀
    if l = "" then matLoop cur rest
    else if strStartsWith l "- " then
      cur.toList ++ matLoop (some ⟨strDrop l 2, "", ""⟩) rest
    else
      match cur with
      | none => matLoop none rest
      | some e => matLoop (some (matExtend e l)) rest

/-- Parse a captured materials block: `materials_raw.strip().split('\n')`
fed to the bullet loop. -/
def parseMaterials (raw : String) : List MaterialEntry :=
  matLoop none (pySplitLines (pyStrip raw))

/-- `re.sub(r"^\[.*?\]\s*", "", title).strip()`: drop a leading
bracketed tag (lazy, no newline inside) plus following whitespace, then
strip. -/
def cleanTitle (title : String) : String :=
  match title.data with
  | '[' :: r =>
    let pre := r.takeWhile (fun c => c ≠ ']' && c ≠ '\n')
    match r.drop pre.length with
    | ']' :: r2 => ⟨stripList (r2.dropWhile pyIsSpace)⟩
    | _ => ⟨stripList title.data⟩
  | _ => ⟨stripList title.data⟩

/-- The eligibility test of the reconciliation loop: non-empty source
title, and one of the three substring relations of line 370 of the
script. -/
def sourceMatches (e : MaterialEntry) (ns : SourceRecord) : Bool :=
  if ns.source_title = "" then false
  else
    isSubstrStr ns.source_title e.title_line ||
    isSubstrStr (cleanTitle e.title_line) ns.source_title ||
    isSubstrStr e.title_line ns.source_title

/-- The `for ns in sources: ... break` loop: first eligible record wins. -/
def findMatchedSource (e : MaterialEntry) : List SourceRecord → Option SourceRecord
  | [] => none
  | ns :: rest => if sourceMatches e ns then some ns else findMatchedSource e rest

/-- `db_summary = matched_source.get('source_summary', '').replace('\n', ' ')`. -/
def flattenSummary (s : String) : String := pyReplace s "\n" " "

/-- `final_summary = db_summary if db_summary and len(db_summary) > len(trace_summary) else trace_summary`. -/
def chooseSummary (e : MaterialEntry) (ns : SourceRecord) : String :=
  let db := flattenSummary ns.source_summary
  if db ≠ "" ∧ db.length > e.summary.length then db else e.summary

/-- `reconcile`: the matched source (if any) and the summary surfaced
for the entry. -/
def reconcile (e : MaterialEntry) (srcs : List SourceRecord) : Option SourceRecord × String :=
  match findMatchedSource e srcs with
  | some ns => (some ns, chooseSummary e ns)
  | none => (none, e.summary)

/-! ### ReportBuilder: `generate_story_report` -/

def joinLines (ls : List String) : String := String.intercalate "\n" ls

/-- The per-step script-segment extraction of Chapter 1 (and the
filter for "Segment Writer Result" steps). -/
def scriptSeg (s : Step) : Option String :=
  if isSubstrStr "Segment Writer Result" s.name then
    (extractLLMResponse (joinLines s.content)).map pyStrip
  else none

/-- Chapter 1 ("The Final Script"): numbered segments, or the explicit
placeholder when no segment was extracted. -/
def chapter1Render (steps : List Step) : String :=
  "## 🎬 Chapter 1: The Final Script\n\n" ++
  "> This is the final audio content delivered to the user.\n\n" ++
  (let segs := steps.filterMap scriptSeg
   if segs.isEmpty then "*No script segments found in trace log.*\n\n"
   else String.join (segs.enum.map (fun p =>
     "### Segment " ++ toString (p.1 + 1) ++ "\n\n" ++ p.2 ++ "\n\n"))) ++
  "---\n\n"

def planStepP (s : Step) : Bool := isSubstrStr "Plan Episode Flow" s.name

def writerP (s : Step) : Bool := isSubstrStr "Segment Writer Result" s.name

/-- Chapter 2 ("The Blueprint"): principles, the id→title map and the
planned sequence from the planning step, or the explicit placeholder
when the step is absent; a JSON parse failure degrades to its own
placeholder line. -/
def chapter2Render (steps : List Step) : String :=
  "## 📐 Chapter 2: The Blueprint (Planning)\n\n" ++
  "> How the AI decided to arrange the stories.\n\n" ++
  (match steps.find? planStepP with
   | none => "*Planning step not found in trace.*\n"
   | some ps =>
     let content := joinLines ps.content
     let pm := promptMatch content
     let principlesPart :=
       match pm with
       | none => ""
       | some ptext =>
         let prs := principlesScan ptext.data.length ptext.data
         if prs.isEmpty then ""
         else "### Core Principles Used:\n" ++
           String.intercalate "\n" (prs.map (fun p => "- " ++ p)) ++ "\n\n"
     let item_map :=
       match pm with
       | none => []
       | some ptext => (idTitleScan ptext.data.length ptext.data).map (fun p => (p.1, pyStrip p.2))
     let jsonPart :=
       match jsonMatch content with
       | none => ""
       | some jstr =>
         match jsonParseArray jstr with
         | none => "Failed to parse planning JSON.\n"
         | some order =>
           "### Planned Sequence:\n" ++
           String.join (order.enum.map (fun p =>
             toString (p.1 + 1) ++ ". **" ++ mapGet item_map p.2 "Unknown Item" ++
             "** (`" ++ p.2 ++ "`)\n"))
     principlesPart ++ jsonPart) ++
  "\n---\n\n"

/-- The rendering of one reconciled material entry in the production
log (🟢 matched against the catalog, ⚪ fallback to trace data). -/
def renderEntry (srcs : List SourceRecord) (e : MaterialEntry) : String :=
  match reconcile e srcs with
  | (some ns, fs) =>
    "- 🟢 **" ++ ns.source_title ++ "**\n" ++
    "  > " ++ fs ++ "\n\n" ++
    "  *Source: " ++ ns.source_url ++ "*\n"
  | (none, _) =>
    "- ⚪ **" ++ e.title_line ++ "** *(From Log)*\n" ++
    (if e.summary ≠ "" then "  > " ++ e.summary ++ "\n\n" else "") ++
    (if e.source ≠ "" then "  *Source: " ++ e.source ++ "*\n" else "")

/-- Lines 395-400 of the script: the final-draft block of one
production-log segment. When the response block is missing, only the
fixed label line is emitted — no placeholder. -/
def renderFinalDraft (content : String) : String :=
  "**LLM Output (Final Draft)**:\n" ++
  (match extractLLMResponse content with
   | some r => "```text\n" ++ pyStrip r ++ "\n```\n"
   | none => "") ++
  "\n"

/-- Chapter 3 ("Production Log"): for each writer step, the reconciled
materials block (silently skipped if the block is absent) and the final
draft. -/
def chapter3Render (srcs : List SourceRecord) (steps : List Step) : String :=
  "## 🏭 Chapter 3: Production Log (Deep Dive)\n\n" ++
  "> Detailed view of sources and transformation for each segment.\n\n" ++
  String.join (((steps.filter writerP).enum).map (fun p =>
    let content := joinLines p.2.content
    "### Segment " ++ toString (p.1 + 1) ++ " Production\n" ++
    (match materialsMatch content with
     | none => ""
     | some raw =>
       "**Input Sources:**\n" ++
       String.join ((parseMaterials raw).map (renderEntry srcs)) ++ "\n") ++
    renderFinalDraft content))

def renderOptInt : Option Int → String
  | none => "None"
  | some n => toString n

/-- The metadata header block of the report. -/
def headerRender (item : Item) : String :=
  "# 🎙️ FreshLoop Story Journey: " ++ item.title ++ "\n\n" ++
  "- **Category**: " ++ item.category ++ "\n" ++
  "- **Publish Time**: " ++ renderEpoch (item.publish_time.getD 0) ++ "\n" ++
  "- **Duration**: " ++ renderOptInt item.duration_sec ++ "s\n" ++
  "- **Nexus ID**: `" ++ item.id ++ "`\n\n" ++
  "---\n\n"

/-- `generate_story_report` from the script: header, final script,
blueprint and production log concatenated into one document. -/
def generate_story_report (item : Item) (trace_content : String) (sources : List SourceRecord) : String :=
  let steps := segmentSteps trace_content
  headerRender item ++ chapter1Render steps ++ chapter2Render steps ++ chapter3Render sources steps

/-! ## Shared helper lemmas -/

theorem takeWhile_all {α : Type} {p : α → Bool} :
    ∀ {l : List α}, (∀ x ∈ l, p x = true) → l.takeWhile p = l
  | [], _ => rfl
  | a :: t, h => by
    rw [List.takeWhile_cons_of_pos (h a (List.mem_cons_self a t))]
    rw [takeWhile_all (fun x hx => h x (List.mem_cons_of_mem a hx))]

theorem takeWhile_append_stop {α : Type} {p : α → Bool} :
    ∀ (l₁ : List α) (c : α) (l₂ : List α), (∀ x ∈ l₁, p x = true) → p c = false →
      (l₁ ++ c :: l₂).takeWhile p = l₁
  | [], c, l₂, _, hc => by simp [List.takeWhile_cons_of_neg, hc]
  | a :: t, c, l₂, h, hc => by
    rw [List.cons_append, List.takeWhile_cons_of_pos (h a (List.mem_cons_self a t))]
    rw [takeWhile_append_stop t c l₂ (fun x hx => h x (List.mem_cons_of_mem a hx)) hc]

theorem drop_append_plus {α : Type} :
    ∀ (l₁ l₂ : List α) (k : Nat), (l₁ ++ l₂).drop (l₁.length + k) = l₂.drop k
  | [], l₂, k => by simp
  | a :: t, l₂, k => by
    simp only [List.cons_append, List.length_cons]
    have : t.length + 1 + k = (t.length + k) + 1 := by omega
    rw [this, List.drop_succ_cons, drop_append_plus t l₂ k]

theorem dropWhile_head_false {α : Type} {p : α → Bool} :
    ∀ {l : List α} {a : α} {t : List α}, l.dropWhile p = a :: t → p a = false := by
  intro l
  induction l with
  | nil => intro a t h; simp [List.dropWhile] at h
  | cons x xs ih =>
    intro a t h
    by_cases hx : p x
    · rw [List.dropWhile_cons_of_pos hx] at h; exact ih h
    · rw [List.dropWhile_cons_of_neg hx] at h
      cases h
      simpa using hx

theorem mk_eq_empty_iff {l : List Char} : (⟨l⟩ : String) = "" ↔ l = [] := by
  constructor
  · intro h; exact congrArg String.data h
  · intro h; rw [h]

/-! ## Claims -/

/-- C10: an item whose `publish_time` is present but `0` is handled by
the falsy check `if not publish_ts` exactly like an item with no
publish timestamp: `find_matching_trace` returns no match without
examining any candidate file. -/
theorem publish_zero_like_absent (item : Item) (files : List String)
    (h : item.publish_time = some 0) :
    find_matching_trace item files = .result none ∧
    find_matching_trace ⟨item.id, item.title, item.category, none, item.duration_sec⟩ files =
      .result none := by
  constructor
  · simp [find_matching_trace, h]
  · simp [find_matching_trace]

/-- Witness for C10 at a concrete item and candidate list. -/
theorem publish_zero_like_absent_witness :
    find_matching_trace ⟨"it", "t", "AI", some 0, none⟩ ["trace_20260107_1229_AI_86eafa6b.md"] =
      .result none ∧
    find_matching_trace ⟨"it", "t", "AI", none, none⟩ ["trace_20260107_1229_AI_86eafa6b.md"] =
      .result none :=
  publish_zero_like_absent ⟨"it", "t", "AI", some 0, none⟩
    ["trace_20260107_1229_AI_86eafa6b.md"] rfl

/-- C9: the report pipeline is deterministic — two runs of
`generate_story_report` on equal item, trace text and source list
produce equal report text. -/
theorem report_deterministic (i₁ i₂ : Item) (t₁ t₂ : String)
    (s₁ s₂ : List SourceRecord) (hi : i₁ = i₂) (ht : t₁ = t₂) (hs : s₁ = s₂) :
    generate_story_report i₁ t₁ s₁ = generate_story_report i₂ t₂ s₂ := by
  rw [hi, ht, hs]

/-- Witness for C9 at concrete inputs. -/
theorem report_deterministic_witness :
    generate_story_report ⟨"a", "b", "c", some 1, none⟩ "## 1. S (t)\nx" [] =
      generate_story_report ⟨"a", "b", "c", some 1, none⟩ "## 1. S (t)\nx" [] :=
  report_deterministic _ _ _ _ _ _ rfl rfl rfl

/-- C1 (failing input): a candidate whose decoded timestamp is exactly
equal to the item's publish timestamp is *selected* by
`find_matching_trace` (the filter is `if dt > publish_dt: continue`,
which keeps equality), although the docstring and the spec require the
trace to be strictly before the publish time. -/
theorem equal_timestamp_selected :
    find_matching_trace
        ⟨"item1", "T", "AI", some (toEpochSecs ⟨2026, 1, 7, 12, 29⟩), none⟩
        ["trace_20260107_1229_AI_86eafa6b.md"] =
      .result (some "trace_20260107_1229_AI_86eafa6b.md") ∧
    parse_trace_filename "trace_20260107_1229_AI_86eafa6b.md" =
      .ok ⟨2026, 1, 7, 12, 29⟩ "AI" "86eafa6b" := by
  exact ⟨rfl, rfl⟩

/-- C2 (counterexample): a filename matching the regex whose date
digits denote month 13 makes `parse_trace_filename` raise
(`strptime` `ValueError`), instead of returning the no-match triple. -/
theorem invalid_month_raises :
    parse_trace_filename "trace_20261301_1229_AI_86eafa6b.md" = .raised := rfl

/-- C2 (amended): decoding returns the no-match result exactly for
inputs rejected by the regex; an input the regex accepts whose
date/time digits are not a valid calendar date/time raises instead of
returning no-match. -/
theorem decode_failure_modes :
    (∀ (s : String) (d t c i : List Char),
      regexCapture (pyBasename s.data) = some (d, t, c, i) →
      validTs (tsOfDigits d t) = false → parse_trace_filename s = .raised) ∧
    (∀ s : String, regexCapture (pyBasename s.data) = none →
      parse_trace_filename s = .noMatch) := by
  constructor
  · intro s d t c i hcap hval
    simp [parse_trace_filename, hcap, hval]
  · intro s hcap
    simp [parse_trace_filename, hcap]

/-- Witness for C2 at concrete inputs: the month-13 filename raises,
and a filename rejected by the regex yields no-match. -/
theorem decode_failure_modes_witness :
    parse_trace_filename "trace_20261301_1229_AI_86eafa6b.md" = ParseResult.raised ∧
    parse_trace_filename "nope.md" = ParseResult.noMatch :=
  ⟨decode_failure_modes.1 "trace_20261301_1229_AI_86eafa6b.md"
      "20261301".data "1229".data "AI".data "86eafa6b".data rfl rfl,
    decode_failure_modes.2 "nope.md" rfl⟩

/-- C6 (counterexample): a production-log step whose body has no LLM
response block produces *no* placeholder for the final draft — the
section consists of the fixed label line only. -/
theorem missing_draft_no_placeholder :
    chapter3Render [] [⟨"1", "Segment Writer Result", "t", ["hello"]⟩] =
      "## 🏭 Chapter 3: Production Log (Deep Dive)\n\n> Detailed view of sources and transformation for each segment.\n\n### Segment 1 Production\n**LLM Output (Final Draft)**:\n\n" := by
  rfl

/-- C6 (amended): a parse-miss in the final-script and blueprint
sections is rendered as an explicit placeholder, and the builder is a
total function (so no partial document is possible); but in the
production log a missing LLM-response block yields only the fixed
label with no placeholder. -/
theorem placeholder_behavior :
    (∀ steps : List Step, steps.filterMap scriptSeg = [] →
      chapter1Render steps =
        "## 🎬 Chapter 1: The Final Script\n\n> This is the final audio content delivered to the user.\n\n*No script segments found in trace log.*\n\n---\n\n") ∧
    (∀ steps : List Step, steps.find? planStepP = none →
      chapter2Render steps =
        "## 📐 Chapter 2: The Blueprint (Planning)\n\n> How the AI decided to arrange the stories.\n\n*Planning step not found in trace.*\n\n---\n\n") ∧
    (∀ content : String, extractLLMResponse content = none →
      renderFinalDraft content = "**LLM Output (Final Draft)**:\n\n") := by
  refine ⟨?_, ?_, ?_⟩
  · intro steps h
    simp only [chapter1Render, h]
    rfl
  · intro steps h
    simp only [chapter2Render, h]
    rfl
  · intro content h
    simp only [renderFinalDraft, h]
    rfl

/-- Witness for C6's amended behavior at concrete inputs. -/
theorem placeholder_behavior_witness :
    chapter1Render [] =
      "## 🎬 Chapter 1: The Final Script\n\n> This is the final audio content delivered to the user.\n\n*No script segments found in trace log.*\n\n---\n\n" ∧
    chapter2Render [] =
      "## 📐 Chapter 2: The Blueprint (Planning)\n\n> How the AI decided to arrange the stories.\n\n*Planning step not found in trace.*\n\n---\n\n" ∧
    renderFinalDraft "hello" = "**LLM Output (Final Draft)**:\n\n" :=
  ⟨placeholder_behavior.1 [] rfl, placeholder_behavior.2.1 [] rfl,
    placeholder_behavior.2.2 "hello" rfl⟩

/-- C5: `reconcile` matches at most one source record — the first one
in input order that passes the eligibility test (non-empty title and
one of the three substring relations) — and the surfaced summary is the
matched record's newline-flattened summary when that is non-empty and
strictly longer than the entry's own summary, else the entry's own
summary. -/
theorem reconcile_first_match (e : MaterialEntry) (srcs : List SourceRecord)
    (ns : SourceRecord) (s : String) (h : reconcile e srcs = (some ns, s)) :
    (∃ pre post, srcs = pre ++ ns :: post ∧ sourceMatches e ns = true ∧
      ∀ x ∈ pre, sourceMatches e x = false) ∧
    s = (if flattenSummary ns.source_summary ≠ "" ∧
            (flattenSummary ns.source_summary).length > e.summary.length
         then flattenSummary ns.source_summary else e.summary) := by
  induction srcs with
  | nil => simp [reconcile, findMatchedSource] at h
  | cons x rest ih =>
    by_cases hm : sourceMatches e x
    · have hr : reconcile e (x :: rest) = (some x, chooseSummary e x) := by
        simp [reconcile, findMatchedSource, hm]
      rw [hr] at h
      have hx : ns = x := by
        have := congrArg Prod.fst h
        simpa using this.symm
      have hsum : s = chooseSummary e x := by
        have := congrArg Prod.snd h
        simpa using this.symm
      subst hx
      refine ⟨⟨[], rest, rfl, hm, by intro y hy; cases hy⟩, ?_⟩
      rw [hsum]; rfl
    · have hr : reconcile e (x :: rest) = reconcile e rest := by
        simp [reconcile, findMatchedSource, hm]
      rw [hr] at h
      obtain ⟨⟨pre, post, hsr, hm2, hpre⟩, hs⟩ := ih h
      refine ⟨⟨x :: pre, post, by rw [hsr]; rfl, hm2, ?_⟩, hs⟩
      intro y hy
      rcases List.mem_cons.mp hy with hyx | hyp
      · rw [hyx]; exact Bool.not_eq_true _ ▸ (by simpa using hm)
      · exact hpre y hyp

/-- Witness for C5: a concrete entry and source list where the second
record matches (via the clean-title substring test) and its longer
summary is surfaced. -/
theorem reconcile_first_match_witness :
    (∃ pre post,
      ([⟨"", "x", "u0"⟩, ⟨"Hello World News", "a longer summary", "http"⟩] : List SourceRecord) =
        pre ++ (⟨"Hello World News", "a longer summary", "http"⟩ : SourceRecord) :: post ∧
      sourceMatches ⟨"[Tag] Hello World", "short", ""⟩
        ⟨"Hello World News", "a longer summary", "http"⟩ = true ∧
      ∀ x ∈ pre, sourceMatches ⟨"[Tag] Hello World", "short", ""⟩ x = false) ∧
    "a longer summary" =
      (if flattenSummary "a longer summary" ≠ "" ∧
          (flattenSummary "a longer summary").length > ("short" : String).length
       then flattenSummary "a longer summary" else "short") :=
  reconcile_first_match ⟨"[Tag] Hello World", "short", ""⟩
    [⟨"", "x", "u0"⟩, ⟨"Hello World News", "a longer summary", "http"⟩]
    ⟨"Hello World News", "a longer summary", "http"⟩ "a longer summary" rfl

/-- The bullet loop only ever opens an entry from a stripped line that
starts with `- `; since a stripped non-empty line cannot end in a
space, the part after `- ` is non-empty. -/
theorem strip_bullet_title_nonempty (l₀ : String)
    (_hne : pyStrip l₀ ≠ "") (hsw : strStartsWith (pyStrip l₀) "- " = true) :
    strDrop (pyStrip l₀) 2 ≠ "" := by
  obtain ⟨rest, hrest⟩ := List.isPrefixOf_iff_prefix.mp hsw
  have hdata : (pyStrip l₀).data = '-' :: ' ' :: rest := hrest.symm
  have hdrop : strDrop (pyStrip l₀) 2 = ⟨rest⟩ := by
    simp [strDrop, hdata]
  rw [hdrop]
  rw [Ne, mk_eq_empty_iff]
  intro hrnil
  subst hrnil
  -- then the stripped line is ['-', ' '], whose reversal starts with a
  -- space, contradicting that stripList ends with a dropWhile of spaces
  have hstr : stripList l₀.data = ['-', ' '] := by
    have : (pyStrip l₀).data = stripList l₀.data := rfl
    rw [hdata] at this; exact this.symm
  have hrev : ((l₀.data.dropWhile pyIsSpace).reverse.dropWhile pyIsSpace) = [' ', '-'] := by
    have := congrArg List.reverse hstr
    simpa [stripList] using this
  have := dropWhile_head_false hrev
  simp [pyIsSpace] at this

/-- C8: every `MaterialEntry` produced by the materials-block parser
has a non-empty `title_line` (its `summary` and `source` are total
`String` fields, initialised empty and only ever appended to). -/
theorem material_title_nonempty (raw : String) :
    ∀ e ∈ parseMaterials raw, e.title_line ≠ "" := by
  suffices h : ∀ (lines : List String) (cur : Option MaterialEntry),
      (∀ e, cur = some e → e.title_line ≠ "") →
      ∀ x ∈ matLoop cur lines, x.title_line ≠ "" by
    exact h _ none (by intro e he; cases he)
  intro lines
  induction lines with
  | nil =>
    intro cur hcur x hx
    simp only [matLoop] at hx
    cases cur with
    | none => cases hx
    | some s =>
      simp only [Option.toList_some, List.mem_singleton] at hx
      exact hx ▸ hcur s rfl
  | cons l₀ rest ih =>
    intro cur hcur x hx
    simp only [matLoop] at hx
    by_cases h0 : pyStrip l₀ = ""
    · rw [if_pos h0] at hx
      exact ih cur hcur x hx
    · rw [if_neg h0] at hx
      by_cases hb : strStartsWith (pyStrip l₀) "- " = true
      · rw [if_pos hb] at hx
        rcases List.mem_append.mp hx with hx1 | hx2
        · cases cur with
          | none => cases hx1
          | some s =>
            simp only [Option.toList_some, List.mem_singleton] at hx1
            exact hx1 ▸ hcur s rfl
        · refine ih _ ?_ x hx2
          intro e he
          cases he
          exact strip_bullet_title_nonempty l₀ h0 hb
      · rw [if_neg hb] at hx
        cases cur with
        | none => exact ih none (by intro e he; cases he) x hx
        | some e =>
          have hte := hcur e rfl
          have hpres : (matExtend e (pyStrip l₀)).title_line = e.title_line := by
            unfold matExtend
            split
            · rfl
            · split <;> rfl
          exact ih (some (matExtend e (pyStrip l₀)))
            (by intro e' he'; cases he'; rw [hpres]; exact hte) x hx

/-- Witness for C8 at a concrete materials block. -/
theorem material_title_nonempty_witness :
    ({ title_line := "Hello", summary := "", source := "" } : MaterialEntry).title_line ≠ "" :=
  material_title_nonempty "- Hello" ⟨"Hello", "", ""⟩ (by decide)

/-! Lemmas about the stable sort used by `find_matching_trace`. -/

/-- The first element of the list achieving the minimum key (earlier
elements win ties). -/
def leftMin : List (Int × String) → Option (Int × String)
  | [] => none
  | c :: t =>
    match leftMin t with
    | none => some c
    | some m => some (if m.1 < c.1 then m else c)

theorem length_pyInsert (c : Int × String) :
    ∀ l : List (Int × String), (pyInsert c l).length = l.length + 1
  | [] => rfl
  | d :: t => by
    by_cases h : d.1 < c.1
    · simp [pyInsert, h, length_pyInsert c t]
    · simp [pyInsert, h]

theorem length_pySort : ∀ l : List (Int × String), (pySort l).length = l.length
  | [] => rfl
  | c :: t => by simp [pySort, length_pyInsert, length_pySort t]

theorem head_pySort : ∀ l : List (Int × String), (pySort l).head? = leftMin l
  | [] => rfl
  | c :: t => by
    cases hst : pySort t with
    | nil =>
      have ht : t = [] := by
        have hl := length_pySort t
        rw [hst] at hl
        exact List.length_eq_zero.mp hl.symm
      subst ht
      simp [pySort, pyInsert, leftMin]
    | cons d r =>
      have ih := head_pySort t
      rw [hst] at ih
      simp only [pySort, hst, leftMin, ← ih, List.head?_cons]
      by_cases h : d.1 < c.1 <;> simp [pyInsert, h]

theorem leftMin_mem : ∀ (l : List (Int × String)) (m : Int × String),
    leftMin l = some m → m ∈ l
  | [], m => by simp [leftMin]
  | c :: t, m => by
    intro h
    simp only [leftMin] at h
    cases hlt : leftMin t with
    | none => rw [hlt] at h; cases h; exact List.mem_cons_self c t
    | some m' =>
      rw [hlt] at h
      cases h
      by_cases hc : m'.1 < c.1
      · rw [if_pos hc]; exact List.mem_cons_of_mem c (leftMin_mem t m' hlt)
      · rw [if_neg hc]; exact List.mem_cons_self c t

theorem leftMin_head_min (g : Int) (p : String) (s₂ : List (Int × String))
    (h3 : ∀ x ∈ s₂, g ≤ x.1) : leftMin ((g, p) :: s₂) = some (g, p) := by
  simp only [leftMin]
  cases hlt : leftMin s₂ with
  | none => rfl
  | some m =>
    have hm : m ∈ s₂ := leftMin_mem s₂ m hlt
    have : ¬ (m.1 < g) := not_lt.mpr (h3 m hm)
    simp [this]

theorem leftMin_prepend :
    ∀ (s₁ rest : List (Int × String)) (g : Int) (p : String),
      leftMin rest = some (g, p) → (∀ x ∈ s₁, g < x.1) →
      leftMin (s₁ ++ rest) = some (g, p)
  | [], rest, g, p, hr, _ => by simpa using hr
  | a :: s₁', rest, g, p, hr, h2 => by
    have hrec := leftMin_prepend s₁' rest g p hr
      (fun x hx => h2 x (List.mem_cons_of_mem a hx))
    have ha : g < a.1 := h2 a (List.mem_cons_self a s₁')
    simp only [List.cons_append, leftMin, List.append_eq]
    rw [hrec]
    simp [ha]

/-- C7: when two or more surviving candidates are tied for the minimum
gap, `find_matching_trace` returns the tied candidate that appears
first in the original enumeration order (`candidates.sort` is stable
and `candidates[0]` is taken): whenever the collected survivor list
decomposes as `s₁ ++ (g, p) :: s₂` with every earlier survivor strictly
farther and every later survivor at least as far, the selected path is
`p`. -/
theorem tie_break_enumeration_order (item : Item) (files : List String)
    (pts g : Int) (p : String) (s₁ s₂ : List (Int × String))
    (hp : item.publish_time = some pts) (h0 : pts ≠ 0)
    (hc : collectCandidates (normalizeCategory item.category) pts files =
      some (s₁ ++ (g, p) :: s₂))
    (h2 : ∀ x ∈ s₁, g < x.1) (h3 : ∀ x ∈ s₂, g ≤ x.1) :
    find_matching_trace item files = .result (some p) := by
  simp only [find_matching_trace, hp]
  rw [if_neg h0]
  simp only [hc]
  have hlm : leftMin (s₁ ++ (g, p) :: s₂) = some (g, p) :=
    leftMin_prepend s₁ _ g p (leftMin_head_min g p s₂ h3) h2
  cases hl : s₁ ++ (g, p) :: s₂ with
  | nil => exact absurd hl (List.append_ne_nil_of_right_ne_nil s₁ (List.cons_ne_nil _ _))
  | cons c cs =>
    have hh : (pySort (c :: cs)).head? = some (g, p) := by
      rw [head_pySort, ← hl]
      exact hlm
    cases hps : pySort (c :: cs) with
    | nil => rw [hps] at hh; cases hh
    | cons b bs =>
      rw [hps] at hh
      simp only [List.head?_cons, Option.some.injEq] at hh
      simp only [hps, hh]

/-- Witness for C7: two candidates decoding to the same timestamp (so
equal gaps of 600 s); the first enumerated one is selected. -/
theorem tie_break_enumeration_order_witness :
    find_matching_trace
        ⟨"i", "t", "AI", some (toEpochSecs ⟨2026, 1, 7, 12, 29⟩ + 600), none⟩
        ["trace_20260107_1229_AI_aa.md", "trace_20260107_1229_AI_bb.md"] =
      .result (some "trace_20260107_1229_AI_aa.md") :=
  tie_break_enumeration_order
    ⟨"i", "t", "AI", some (toEpochSecs ⟨2026, 1, 7, 12, 29⟩ + 600), none⟩
    ["trace_20260107_1229_AI_aa.md", "trace_20260107_1229_AI_bb.md"]
    (toEpochSecs ⟨2026, 1, 7, 12, 29⟩ + 600) 600 "trace_20260107_1229_AI_aa.md"
    [] [(600, "trace_20260107_1229_AI_bb.md")]
    rfl (by decide) rfl (by simp) (by decide)

/-! Lemmas relating the segmentation loop to its specification. -/

theorem segLoop_some (s : Step) :
    ∀ lines : List String,
      segLoop (some s) lines =
        ⟨s.id, s.name, s.time, s.content ++ lines.takeWhile (fun x => !isHeaderLine x)⟩ ::
          segmentSpec (lines.dropWhile (fun x => !isHeaderLine x))
  | [] => by simp [segLoop, segmentSpec]
  | l :: rest => by
    cases hh : parseStepHeader l with
    | some h =>
      have hhl : isHeaderLine l = true := by simp [isHeaderLine, hh]
      have hnot : (!isHeaderLine l) = false := by simp [hhl]
      simp only [segLoop, hh, Option.toList_some, List.singleton_append]
      rw [segLoop_some ⟨h.1, pyStrip h.2.1, h.2.2, []⟩ rest]
      rw [List.takeWhile_cons_of_neg (by simp [hnot]), List.dropWhile_cons_of_neg (by simp [hnot])]
      rw [segmentSpec]
      simp [hh]
    | none =>
      have hhl : isHeaderLine l = false := by simp [isHeaderLine, hh]
      simp only [segLoop, hh]
      rw [segLoop_some ⟨s.id, s.name, s.time, s.content ++ [l]⟩ rest]
      rw [List.takeWhile_cons_of_pos (by simp [hhl]), List.dropWhile_cons_of_pos (by simp [hhl])]
      simp [List.append_assoc]

theorem segLoop_none : ∀ lines : List String, segLoop none lines = segmentSpec lines
  | [] => by simp [segLoop, segmentSpec]
  | l :: rest => by
    cases hh : parseStepHeader l with
    | some h =>
      simp only [segLoop, hh, Option.toList_none, List.nil_append]
      rw [segLoop_some ⟨h.1, pyStrip h.2.1, h.2.2, []⟩ rest]
      rw [segmentSpec]
      simp [hh]
    | none =>
      simp only [segLoop, hh]
      rw [segLoop_none rest, segmentSpec]
      simp [hh]

theorem segmentSpec_length :
    ∀ (n : Nat) (lines : List String), lines.length ≤ n →
      (segmentSpec lines).length = lines.countP isHeaderLine
  | _, [], _ => by simp [segmentSpec]
  | 0, l :: rest, h => by simp at h
  | n+1, l :: rest, h => by
    have hr : rest.length ≤ n := by
      simp only [List.length_cons] at h; omega
    cases hh : parseStepHeader l with
    | none =>
      have hhl : isHeaderLine l = false := by simp [isHeaderLine, hh]
      rw [segmentSpec]
      simp only [hh]
      rw [segmentSpec_length n rest hr, List.countP_cons]
      simp [hhl]
    | some st =>
      have hhl : isHeaderLine l = true := by simp [isHeaderLine, hh]
      rw [segmentSpec]
      simp only [hh, List.length_cons]
      have hd : (rest.dropWhile (fun x => !isHeaderLine x)).length ≤ n :=
        le_trans (length_dropWhile_le' _ rest) hr
      rw [segmentSpec_length n _ hd]
      have hsplit : rest.countP isHeaderLine =
          (rest.takeWhile (fun x => !isHeaderLine x)).countP isHeaderLine +
          (rest.dropWhile (fun x => !isHeaderLine x)).countP isHeaderLine := by
        conv_lhs => rw [← List.takeWhile_append_dropWhile (p := fun x => !isHeaderLine x) (l := rest)]
        rw [List.countP_append]
      have htw : (rest.takeWhile (fun x => !isHeaderLine x)).countP isHeaderLine = 0 := by
        rw [List.countP_eq_zero]
        intro a ha
        have := List.mem_takeWhile_imp ha
        simp at this
        simp [this]
      rw [List.countP_cons]
      simp only [hhl, if_pos]
      omega

/-- C4: segmentation yields exactly one step per header line, in input
order: `segmentSteps` coincides with the specification-side
`segmentSpec` (each step's body is exactly the run of non-header lines
after its header, and lines before the first header are discarded), the
number of steps equals the number of header lines, and a text with no
header lines yields no steps. -/
theorem segmentation_partitions (text : String) :
    segmentSteps text = segmentSpec (pySplitLines text) ∧
    (segmentSteps text).length = (pySplitLines text).countP isHeaderLine ∧
    ((pySplitLines text).countP isHeaderLine = 0 → segmentSteps text = []) := by
  have h1 : segmentSteps text = segmentSpec (pySplitLines text) := segLoop_none _
  have h2 : (segmentSteps text).length = (pySplitLines text).countP isHeaderLine := by
    rw [h1]
    exact segmentSpec_length (pySplitLines text).length _ le_rfl
  refine ⟨h1, h2, fun h0 => List.length_eq_zero.mp ?_⟩
  rw [h2, h0]

/-- Witness for C4 at a concrete two-header text. -/
theorem segmentation_partitions_witness :
    segmentSteps "intro\n## 1. Fetch (09:00)\nbody line\n## 2. Plan (09:05)\nx" =
      segmentSpec (pySplitLines "intro\n## 1. Fetch (09:00)\nbody line\n## 2. Plan (09:05)\nx") ∧
    (segmentSteps "intro\n## 1. Fetch (09:00)\nbody line\n## 2. Plan (09:05)\nx").length =
      (pySplitLines "intro\n## 1. Fetch (09:00)\nbody line\n## 2. Plan (09:05)\nx").countP isHeaderLine ∧
    ((pySplitLines "intro\n## 1. Fetch (09:00)\nbody line\n## 2. Plan (09:05)\nx").countP isHeaderLine = 0 →
      segmentSteps "intro\n## 1. Fetch (09:00)\nbody line\n## 2. Plan (09:05)\nx" = []) :=
  segmentation_partitions "intro\n## 1. Fetch (09:00)\nbody line\n## 2. Plan (09:05)\nx"

/-! Lemmas for the filename-codec round trip (C3). -/

theorem digitChar_digitVal (c : Char) (h : c.isDigit = true) :
    digitChar (digitVal c) = c := by
  simp only [Char.isDigit, ge_iff_le, Bool.and_eq_true, decide_eq_true_eq] at h
  obtain ⟨h1, _⟩ := h
  have h48 : (48 : Nat) ≤ c.toNat := h1
  unfold digitChar digitVal
  have harith : 48 + (c.toNat - 48) = c.toNat := by omega
  rw [harith, Char.ofNat_toNat]

theorem digitVal_le_nine (c : Char) (h : c.isDigit = true) : digitVal c ≤ 9 := by
  simp only [Char.isDigit, ge_iff_le, Bool.and_eq_true, decide_eq_true_eq] at h
  obtain ⟨_, h2⟩ := h
  have h57 : c.toNat ≤ 57 := h2
  unfold digitVal
  omega

theorem padNat_digitsToNat (l : List Char) (h : ∀ x ∈ l, x.isDigit = true) :
    padNat l.length (digitsToNat l) = l := by
  induction l using List.reverseRecOn with
  | nil => rfl
  | append_singleton ds c ih =>
    have hds : ∀ x ∈ ds, x.isDigit = true := fun x hx => h x (List.mem_append_left _ hx)
    have hcd : c.isDigit = true := h c (List.mem_append_right _ (List.mem_singleton.mpr rfl))
    have hlen : (ds ++ [c]).length = ds.length + 1 := by simp
    have hval : digitsToNat (ds ++ [c]) = 10 * digitsToNat ds + digitVal c := by
      simp [digitsToNat, List.foldl_append]
    rw [hlen, hval, padNat]
    have hv9 : digitVal c ≤ 9 := digitVal_le_nine c hcd
    have hdiv : (10 * digitsToNat ds + digitVal c) / 10 = digitsToNat ds := by omega
    have hmod : (10 * digitsToNat ds + digitVal c) % 10 = digitVal c := by omega
    rw [hdiv, hmod, ih hds, digitChar_digitVal c hcd]

theorem hexMd_encode (h : List Char) (hne : h ≠ []) (hhx : ∀ x ∈ h, isHexDigit x = true) :
    hexMd (h ++ ['.', 'm', 'd']) = some h := by
  have htw : (h ++ '.' :: ['m', 'd']).takeWhile isHexDigit = h :=
    takeWhile_append_stop h '.' ['m', 'd'] hhx (by decide)
  unfold hexMd
  rw [htw]
  cases h with
  | nil => exact absurd rfl hne
  | cons a u =>
    have hd : ((a :: u) ++ ['.', 'm', 'd']).drop (u.length + 1) = ['.', 'm', 'd'] :=
      List.drop_left' (by simp)
    have ht : ((a :: u) ++ ['.', 'm', 'd']).take (u.length + 1) = a :: u :=
      List.take_left' (by simp)
    show hexSearch ((a :: u) ++ ['.', 'm', 'd']) (u.length + 1) = some (a :: u)
    simp only [hexSearch, hd, ht]
    rw [if_pos (by decide)]

theorem checkAt_at_category (c h : List Char)
    (hcn : ∀ x ∈ c, x ≠ '\n') (hne : h ≠ []) (hhx : ∀ x ∈ h, isHexDigit x = true) :
    checkAt (c ++ '_' :: (h ++ ['.', 'm', 'd'])) c.length = some (c, h) := by
  have htake : (c ++ '_' :: (h ++ ['.', 'm', 'd'])).take c.length = c := List.take_left' rfl
  have hdrop : (c ++ '_' :: (h ++ ['.', 'm', 'd'])).drop c.length = '_' :: (h ++ ['.', 'm', 'd']) :=
    List.drop_left' rfl
  unfold checkAt
  rw [htake, hdrop]
  rw [if_pos ⟨rfl, List.all_eq_true.mpr fun x hx => by
    rw [decide_eq_true_eq]; exact hcn x hx⟩]
  show (match hexMd (h ++ ['.', 'm', 'd']) with
        | some i => some (c, i)
        | none => none) = some (c, h)
  rw [hexMd_encode h hne hhx]

theorem checkAt_beyond (c h : List Char) (k : Nat) (hhx : ∀ x ∈ h, isHexDigit x = true) :
    checkAt (c ++ '_' :: (h ++ ['.', 'm', 'd'])) (c.length + (k + 1)) = none := by
  have hdrop : (c ++ '_' :: (h ++ ['.', 'm', 'd'])).drop (c.length + (k + 1)) =
      (h ++ ['.', 'm', 'd']).drop k := by
    rw [drop_append_plus, List.drop_succ_cons]
  unfold checkAt
  rw [hdrop]
  split
  · cases hdk : (h ++ ['.', 'm', 'd']).drop k with
    | nil => rfl
    | cons x xs =>
      have hx : x ∈ h ++ ['.', 'm', 'd'] := by
        have hm : x ∈ (h ++ ['.', 'm', 'd']).drop k := by
          rw [hdk]; exact List.mem_cons_self x xs
        exact List.drop_subset k _ hm
      have hxne : x ≠ '_' := by
        rcases List.mem_append.mp hx with h1 | h2
        · intro heq; subst heq; exact absurd (hhx _ h1) (by decide)
        · intro heq; subst heq; exact absurd h2 (by decide)
      split
      · next rest heq =>
        injection heq with heq1 _
        exact absurd heq1 hxne
      · rfl
  · rfl

theorem catSearch_encode (c h : List Char) (hcne : c ≠ []) (hcn : ∀ x ∈ c, x ≠ '\n')
    (hne : h ≠ []) (hhx : ∀ x ∈ h, isHexDigit x = true) :
    ∀ k, catSearch (c ++ '_' :: (h ++ ['.', 'm', 'd'])) (c.length + k) = some (c, h)
  | 0 => by
    cases hcc : c with
    | nil => exact absurd hcc hcne
    | cons a u =>
      subst hcc
      show catSearch ((a :: u) ++ '_' :: (h ++ ['.', 'm', 'd'])) (u.length + 1) = some (a :: u, h)
      simp only [catSearch]
      rw [show checkAt ((a :: u) ++ '_' :: (h ++ ['.', 'm', 'd'])) (u.length + 1) =
            some (a :: u, h) from checkAt_at_category (a :: u) h hcn hne hhx]
  | k+1 => by
    have hnone := checkAt_beyond c h k hhx
    show catSearch (c ++ '_' :: (h ++ ['.', 'm', 'd'])) ((c.length + k) + 1) = some (c, h)
    simp only [catSearch]
    rw [show checkAt (c ++ '_' :: (h ++ ['.', 'm', 'd'])) ((c.length + k) + 1) = none from hnone]
    exact catSearch_encode c h hcne hcn hne hhx k

theorem regexCapture_encode (d t c h : List Char)
    (hd8 : d.length = 8) (hdd : ∀ x ∈ d, x.isDigit = true)
    (ht4 : t.length = 4) (htd : ∀ x ∈ t, x.isDigit = true)
    (hcne : c ≠ []) (hcn : ∀ x ∈ c, x ≠ '\n')
    (hne : h ≠ []) (hhx : ∀ x ∈ h, isHexDigit x = true) :
    regexCapture
        ('t' :: 'r' :: 'a' :: 'c' :: 'e' :: '_' ::
          (d ++ '_' :: (t ++ '_' :: (c ++ '_' :: (h ++ ['.', 'm', 'd']))))) =
      some (d, t, c, h) := by
  unfold regexCapture
  rw [if_pos (by simp [List.isPrefixOf])]
  have h6 : ('t' :: 'r' :: 'a' :: 'c' :: 'e' :: '_' ::
      (d ++ '_' :: (t ++ '_' :: (c ++ '_' :: (h ++ ['.', 'm', 'd']))))).drop 6 =
      d ++ '_' :: (t ++ '_' :: (c ++ '_' :: (h ++ ['.', 'm', 'd']))) := rfl
  simp only [h6, List.take_left' hd8, List.drop_left' hd8]
  rw [if_pos ⟨hd8, List.all_eq_true.mpr hdd⟩]
  simp only [List.take_left' ht4, List.drop_left' ht4]
  rw [if_pos ⟨ht4, List.all_eq_true.mpr htd⟩]
  have hlen : (c ++ '_' :: (h ++ ['.', 'm', 'd'])).length = c.length + (h.length + 4) := by
    simp [List.length_append]
  rw [hlen, catSearch_encode c h hcne hcn hne hhx (h.length + 4)]
  rfl

theorem pyBasename_no_slash (l : List Char) (h : ∀ x ∈ l, x ≠ '/') : pyBasename l = l := by
  unfold pyBasename
  rw [takeWhile_all fun x hx => by
    rw [decide_eq_true_eq]; exact h x (List.mem_reverse.mp hx)]
  exact List.reverse_reverse l

/-- C3 (amended): for every string of the grammar shape
`trace_<8 digits>_<4 digits>_<category>_<hex id>.md` (category
non-empty with no newline or slash, hex id non-empty) whose digits form
a valid calendar date/time, decoding returns exactly the captured
category and id together with the parsed timestamp, and re-encoding the
timestamp reproduces the original date and time substrings. (Because
the regex is only anchored at the start, a string with trailing
characters after `.md` can also decode — see the counterexample — so
no-match is returned exactly for strings the unanchored pattern
rejects.) -/
theorem decode_encode_roundtrip (d t c h : List Char) (s : String)
    (hd8 : d.length = 8) (hdd : ∀ x ∈ d, x.isDigit = true)
    (ht4 : t.length = 4) (htd : ∀ x ∈ t, x.isDigit = true)
    (hcne : c ≠ []) (hcn : ∀ x ∈ c, x ≠ '\n') (hcs : ∀ x ∈ c, x ≠ '/')
    (hne : h ≠ []) (hhx : ∀ x ∈ h, isHexDigit x = true)
    (hs : s.data = 't' :: 'r' :: 'a' :: 'c' :: 'e' :: '_' ::
      (d ++ '_' :: (t ++ '_' :: (c ++ '_' :: (h ++ ['.', 'm', 'd'])))))
    (hval : validTs (tsOfDigits d t) = true) :
    parse_trace_filename s = .ok (tsOfDigits d t) ⟨c⟩ ⟨h⟩ ∧
    encodeDate (tsOfDigits d t) = d ∧ encodeTime (tsOfDigits d t) = t := by
  have hd' : ∀ x ∈ d, x ≠ '/' := fun x hx heq => by
    subst heq; exact absurd (hdd _ hx) (by decide)
  have ht' : ∀ x ∈ t, x ≠ '/' := fun x hx heq => by
    subst heq; exact absurd (htd _ hx) (by decide)
  have hh' : ∀ x ∈ h, x ≠ '/' := fun x hx heq => by
    subst heq; exact absurd (hhx _ hx) (by decide)
  have hnos : ∀ x ∈ s.data, x ≠ '/' := by
    rw [hs]
    refine List.forall_mem_cons.mpr ⟨by decide, ?_⟩
    refine List.forall_mem_cons.mpr ⟨by decide, ?_⟩
    refine List.forall_mem_cons.mpr ⟨by decide, ?_⟩
    refine List.forall_mem_cons.mpr ⟨by decide, ?_⟩
    refine List.forall_mem_cons.mpr ⟨by decide, ?_⟩
    refine List.forall_mem_cons.mpr ⟨by decide, ?_⟩
    refine List.forall_mem_append.mpr ⟨hd', ?_⟩
    refine List.forall_mem_cons.mpr ⟨by decide, ?_⟩
    refine List.forall_mem_append.mpr ⟨ht', ?_⟩
    refine List.forall_mem_cons.mpr ⟨by decide, ?_⟩
    refine List.forall_mem_append.mpr ⟨hcs, ?_⟩
    refine List.forall_mem_cons.mpr ⟨by decide, ?_⟩
    exact List.forall_mem_append.mpr ⟨hh', by decide⟩
  refine ⟨?_, ?_, ?_⟩
  · unfold parse_trace_filename
    rw [pyBasename_no_slash _ hnos, hs,
      regexCapture_encode d t c h hd8 hdd ht4 htd hcne hcn hne hhx]
    show (if validTs (tsOfDigits d t) then
        ParseResult.ok (tsOfDigits d t) ⟨c⟩ ⟨h⟩ else .raised) = _
    rw [if_pos hval]
  · have l1 : (d.take 4).length = 4 := by simp [List.length_take, hd8]
    have l2 : ((d.drop 4).take 2).length = 2 := by simp [List.length_take, List.length_drop, hd8]
    have l3 : (d.drop 6).length = 2 := by simp [List.length_drop, hd8]
    have e1 := padNat_digitsToNat (d.take 4) fun x hx => hdd x (List.take_subset 4 d hx)
    have e2 := padNat_digitsToNat ((d.drop 4).take 2) fun x hx =>
      hdd x (List.drop_subset 4 d (List.take_subset 2 (d.drop 4) hx))
    have e3 := padNat_digitsToNat (d.drop 6) fun x hx => hdd x (List.drop_subset 6 d hx)
    rw [l1] at e1
    rw [l2] at e2
    rw [l3] at e3
    show padNat 4 (digitsToNat (d.take 4)) ++ padNat 2 (digitsToNat ((d.drop 4).take 2)) ++
      padNat 2 (digitsToNat (d.drop 6)) = d
    rw [e1, e2, e3]
    rw [show (6 : Nat) = 4 + 2 from rfl, ← List.drop_drop, List.append_assoc,
      List.take_append_drop, List.take_append_drop]
  · have l1 : (t.take 2).length = 2 := by simp [List.length_take, ht4]
    have l2 : (t.drop 2).length = 2 := by simp [List.length_drop, ht4]
    have e1 := padNat_digitsToNat (t.take 2) fun x hx => htd x (List.take_subset 2 t hx)
    have e2 := padNat_digitsToNat (t.drop 2) fun x hx => htd x (List.drop_subset 2 t hx)
    rw [l1] at e1
    rw [l2] at e2
    show padNat 2 (digitsToNat (t.take 2)) ++ padNat 2 (digitsToNat (t.drop 2)) = t
    rw [e1, e2, List.take_append_drop]

/-- C3 (counterexample): the regex has no end anchor, so a filename
with trailing characters after `.md` — which the claimed grammar
rejects — still decodes successfully rather than returning no-match. -/
theorem trailing_junk_decodes :
    parse_trace_filename "trace_20260107_1229_AI_86eafa6b.mdEXTRA" =
      .ok ⟨2026, 1, 7, 12, 29⟩ "AI" "86eafa6b" := rfl

/-- Witness for C3's amended round trip at a concrete grammar string
(category containing an underscore). -/
theorem decode_encode_roundtrip_witness :
    parse_trace_filename "trace_20260107_1229_AI_News_86eafa6b.md" =
      .ok (tsOfDigits "20260107".data "1229".data) ⟨"AI_News".data⟩ ⟨"86eafa6b".data⟩ ∧
    encodeDate (tsOfDigits "20260107".data "1229".data) = "20260107".data ∧
    encodeTime (tsOfDigits "20260107".data "1229".data) = "1229".data :=
  decode_encode_roundtrip "20260107".data "1229".data "AI_News".data "86eafa6b".data
    "trace_20260107_1229_AI_News_86eafa6b.md"
    (by decide) (by decide) (by decide) (by decide) (by decide) (by decide) (by decide)
    (by decide) (by decide) rfl (by decide)

end ExtractTrace
